import Mathlib

/-!
Verification of the GLib web crawler (`applications/web_crawler/glib_web_crawler.c`)
against its natural-language specification.

The crawler's pure core is shallowly embedded below:

* the link extractor embeds the regex `href=["']?([^"'>]+)` together with the
  `g_regex_match` / `g_match_info_next` left-to-right, non-overlapping scan
  (`tryMatch`, `scanFuel`, `extractHrefs`);
* the frontier (the `url_queue` GQueue plus the `visited_urls` GHashTable,
  both guarded by `queue_mutex`) is embedded as `CrawlState`, with the
  mutex-protected check-and-insert block of `extract_urls` as `discoverStep`
  and the seeding loop of `start_crawler` as `seed` / `seedStep`;
* the worker callback `fetch_url` is embedded as a function of the task, the
  frontier state and an environment `web : String → FetchResponse` describing
  what one HTTP GET of each URL returns (libsoup reports transport failures
  as non-2xx internal status codes, so a single status/body/reason triple
  covers both HTTP errors and transport errors);
* URL resolution is delegated by the source to libsoup
  (`soup_uri_new_with_base`), whose code is not part of the repository; it is
  modelled from the spec as RFC 3986 §5 reference resolution (`resolve_rfc`),
  and the crawler pipeline is additionally parameterised over an arbitrary
  resolver `Resolver` where only the repository-visible control flow matters;
* the dispatcher loop of `start_crawler` (lines 203-217) together with the
  GThreadPool workers is embedded as a small-step transition system
  (`SysStep`, `Reach`) over `SysState`, interleaving the dispatcher's
  pop/push iterations, its empty-queue exit, worker pickup from the pool
  queue, completed worker processing, and `g_thread_pool_free` returning.
-/

/-! ### Characters used by the extractor -/

/-- The double-quote character, written via its code point. -/
def dquoteC : Char := Char.ofNat 34

/-- The single-quote character, written via its code point. -/
def squoteC : Char := Char.ofNat 39

/-- A character that terminates the captured group `([^"'>]+)` of the
source regex: double quote, single quote, or `>`. -/
def stopChar (c : Char) : Bool := c = dquoteC || c = squoteC || c = '>'

/-- The literal `href=` that the source regex requires before the value. -/
def hrefKey : List Char := ['h', 'r', 'e', 'f', '=']

/-- `leadsWith p l` is true when `p` is an initial run of `l`. -/
def leadsWith : List Char → List Char → Bool
  | [], _ => true
  | _ :: _, [] => false
  | p :: ps, c :: cs => p = c && leadsWith ps cs

/-- One match attempt of the regex `href=["']?([^"'>]+)` at the head of the
input, as PCRE performs it: the literal `href=`, then a greedily consumed
optional quote, then a non-empty longest run of characters outside
`{", ', >}`.  Returns the captured value and the rest of the input after the
match; `none` when the regex does not match at this position (backtracking
over the optional quote cannot save the match, because the quote character
itself is excluded from the captured class). -/
def tryMatch (cs : List Char) : Option (List Char × List Char) :=
  if leadsWith hrefKey cs then
    let rest := cs.drop 5
    let rest2 := match rest with
      | c :: cs2 => if c = dquoteC || c = squoteC then cs2 else c :: cs2
      | [] => []
    let v := rest2.takeWhile (fun c => !stopChar c)
    if v = [] then none else some (v, rest2.dropWhile (fun c => !stopChar c))
  else none

/-- The `g_regex_match` / `g_match_info_next` scan: try the regex at each
position from left to right, and continue after the end of each match, so
matches do not overlap.  The fuel argument dominates the input length; each
step consumes at least one input character. -/
def scanFuel : Nat → List Char → List (List Char)
  | 0, _ => []
  | _ + 1, [] => []
  | n + 1, c :: cs =>
    match tryMatch (c :: cs) with
    | some (v, rest) => v :: scanFuel n rest
    | none => scanFuel n cs

/-- All captures of `href=["']?([^"'>]+)` over the input, in document order. -/
def scanHrefs (cs : List Char) : List (List Char) := scanFuel cs.length cs

/-- Whether the literal `href=` occurs anywhere in the input. -/
def containsHref : List Char → Bool
  | [] => false
  | c :: cs => leadsWith hrefKey (c :: cs) || containsHref cs

/-- `extract_urls`'s extraction pass over an HTML payload (the loop of
lines 105-130 of the source, before any frontier mutation): the list of raw
link strings in order of first occurrence. -/
def extractHrefs (s : String) : List String := (scanHrefs s.data).map String.mk

/-! ### Frontier state: `url_queue` + `visited_urls` -/

/-- A `(url, depth)` crawl task — the C struct `UrlItem`. -/
structure UrlItem where
  url : String
  depth : Int
  deriving DecidableEq

/-- The crawler's shared state: the pending FIFO queue (`url_queue`, head at
the front, `g_queue_push_tail` appends) and the dedup set (`visited_urls`,
a string-keyed hash set embedded as a duplicate-free list). -/
structure CrawlState where
  queue : List UrlItem
  visited : List String
  deriving DecidableEq

/-- The mutex-protected block of `extract_urls` (source lines 114-125):
if the resolved URL is not in `visited_urls`, add it and push
`{url, depth + 1}` onto the tail of `url_queue`; otherwise do nothing.
`d` is the depth of the task being processed. -/
def discoverStep (st : CrawlState) (absoluteUrl : String) (d : Int) : CrawlState :=
  if absoluteUrl ∈ st.visited then st
  else { visited := absoluteUrl :: st.visited
         queue := st.queue ++ [⟨absoluteUrl, d + 1⟩] }

/-- One iteration of the seeding loop of `start_crawler` (source lines
188-198): `g_hash_table_add` the URL to `visited_urls` (a set add — a second
add of the same key leaves the set unchanged) and unconditionally push
`{url, depth 0}` onto `url_queue`.  Note there is no membership check before
the push. -/
def seedStep (st : CrawlState) (url : String) : CrawlState :=
  { visited := if url ∈ st.visited then st.visited else url :: st.visited
    queue := st.queue ++ [⟨url, 0⟩] }

/-- The whole seeding loop over the start URLs. -/
def seed (st : CrawlState) (urls : List String) : CrawlState :=
  urls.foldl seedStep st

/-- The type of the URL resolver `resolve_url` wraps: given the base URL and
the raw link, libsoup's `soup_uri_new` / `soup_uri_new_with_base` /
`soup_uri_to_string` chain produces either a string or NULL (`none`) when
the input cannot be parsed as a URL. -/
def Resolver := String → String → Option String

/-- The matching loop of `extract_urls` (source lines 110-130): for each raw
link in order, call `resolve_url` and run the check-and-insert block on the
result.  The source checks neither `resolve_url`'s result nor anything else
before handing it to `g_hash_table_contains`; when the resolver yields NULL
(`none`), `g_str_hash` dereferences a null pointer — undefined behavior,
embedded as `none` (no defined resulting state). -/
def extractLoop (r : Resolver) (base : String) (d : Int) :
    List String → CrawlState → Option CrawlState
  | [], st => some st
  | u :: rest, st =>
    match r base u with
    | none => none
    | some abs => extractLoop r base d rest (discoverStep st abs d)

/-- `extract_urls` (source lines 102-134): return immediately when
`depth >= max_depth` (no extraction, no frontier mutation), otherwise run
the scan-resolve-discover loop. -/
def extract_urls (r : Resolver) (maxDepth : Int) (content baseUrl : String)
    (d : Int) (st : CrawlState) : Option CrawlState :=
  if maxDepth ≤ d then some st
  else extractLoop r baseUrl d (extractHrefs content) st

/-! ### The worker callback `fetch_url` -/

/-- What one blocking `soup_session_send_message` GET of a URL produces:
the status code (`msg->status_code`; libsoup reports transport-level
failures — DNS, refused connection, TLS, timeout — as its own non-2xx
internal status codes), the response body and the reason phrase. -/
structure FetchResponse where
  status : Nat
  body : String
  reason : String
  deriving DecidableEq

/-- The observable outcome of one `fetch_url` worker invocation:
the resulting frontier state (`none` when processing hit the undefined
resolver-NULL path), the `(url, content)` pair handed to `save_to_file` if
any, and the failure line printed by `g_printerr` if any. -/
structure WorkerResult where
  state : Option CrawlState
  saved : Option (String × String)
  reported : Option String
  deriving DecidableEq

/-- The failure diagnostic of source line 166. -/
def failMsg (url : String) (resp : FetchResponse) : String :=
  "Failed to fetch " ++ url ++ ": " ++ resp.reason ++ " (Status: " ++ toString resp.status ++ ")"

/-- The worker callback `fetch_url` (source lines 141-173): issue the GET;
if and only if `msg->status_code == SOUP_STATUS_OK` (the integer 200), save
the body and extract links from it; otherwise print the failure line and
touch nothing.  The task is freed either way. -/
def fetch_url (r : Resolver) (maxDepth : Int) (web : String → FetchResponse)
    (item : UrlItem) (st : CrawlState) : WorkerResult :=
  let resp := web item.url
  if resp.status = 200 then
    { state := extract_urls r maxDepth resp.body item.url item.depth st
      saved := some (item.url, resp.body)
      reported := none }
  else
    { state := some st, saved := none, reported := some (failMsg item.url resp) }

/-- Occurrences of a URL string among the queued tasks. -/
def urlCount (u : String) (q : List UrlItem) : Nat :=
  (q.map UrlItem.url).count u

/-- A sequence of mutex-serialized discovery attempts (each element is a raw
`(resolved url, depth of the discovering task)` pair).  Any interleaving of
concurrent workers' check-and-insert blocks is some such sequence, because
each block runs under `queue_mutex`. -/
def runDiscovers (st : CrawlState) (attempts : List (String × Int)) : CrawlState :=
  attempts.foldl (fun s a => discoverStep s a.1 a.2) st

/-! ### URL resolution, modelled from the spec

`resolve_url` (source lines 86-93) delegates entirely to libsoup's
`soup_uri_new`, `soup_uri_new_with_base` and `soup_uri_to_string`, whose
source is not part of this repository.  Modelled from the spec: spec §4.1
defines the normalizer as standard base-URL resolution per RFC 3986 §5,
with unparseable input an error (`none`, matching the NULL that
`soup_uri_to_string` returns for an unparseable URI).  The definitions
below implement RFC 3986 §5.2 (parse, merge, `remove_dot_segments`,
recomposition); a string containing a space is not a URI and fails to
parse. -/

/-- A parsed URI reference (RFC 3986 §3): optional scheme, optional
authority, path, optional query, optional fragment, all as raw character
lists. -/
structure UriRef where
  scheme : Option (List Char)
  authority : Option (List Char)
  path : List Char
  query : Option (List Char)
  fragment : Option (List Char)
  deriving DecidableEq

/-- Characters allowed in a scheme after the initial letter. -/
def schemeChar (c : Char) : Bool := c.isAlpha || c.isDigit || c = '+' || c = '-' || c = '.'

/-- A valid scheme: a letter followed by letters, digits, `+`, `-`, `.`. -/
def validScheme : List Char → Bool
  | [] => false
  | c :: cs => c.isAlpha && cs.all schemeChar

/-- Split off the scheme: the scheme is present when a `:` occurs before any
of `/`, `?`, `#` and the text before it is a valid scheme. -/
def splitScheme (cs : List Char) : Option (List Char) × List Char :=
  let pre := cs.takeWhile (fun c => c ≠ ':' && c ≠ '/' && c ≠ '?' && c ≠ '#')
  match cs.drop pre.length with
  | ':' :: r => if validScheme pre then (some pre, r) else (none, cs)
  | _ => (none, cs)

/-- Split off the authority: present exactly when the remainder starts with
`//`; it extends to the next `/`, `?` or `#`. -/
def splitAuthority (cs : List Char) : Option (List Char) × List Char :=
  match cs with
  | '/' :: '/' :: r =>
    let a := r.takeWhile (fun c => c ≠ '/' && c ≠ '?' && c ≠ '#')
    (some a, r.drop a.length)
  | _ => (none, cs)

/-- Parse a URI reference (RFC 3986 appendix B structure); a string
containing a space cannot be parsed as a URI. -/
def parseRef (s : String) : Option UriRef :=
  let cs := s.data
  if cs.contains ' ' then none
  else
    let (sch, r1) := splitScheme cs
    let (auth, r2) := splitAuthority r1
    let path := r2.takeWhile (fun c => c ≠ '?' && c ≠ '#')
    let r3 := r2.drop path.length
    let (q, r4) := match r3 with
      | '?' :: t => (some (t.takeWhile (fun c => c ≠ '#')), t.drop (t.takeWhile (fun c => c ≠ '#')).length)
      | _ => (none, r3)
    let f := match r4 with
      | '#' :: t => some t
      | _ => none
    some { scheme := sch, authority := auth, path := path, query := q, fragment := f }

/-- Recompose a URI reference into a string (RFC 3986 §5.3). -/
def serializeRef (u : UriRef) : List Char :=
  (match u.scheme with | some s => s ++ [':'] | none => [])
  ++ (match u.authority with | some a => '/' :: '/' :: a | none => [])
  ++ u.path
  ++ (match u.query with | some q => '?' :: q | none => [])
  ++ (match u.fragment with | some f => '#' :: f | none => [])

/-- Remove the last segment and its preceding `/` (if any) from the output
buffer — the pop of RFC 3986 §5.2.4 case C. -/
def popSeg (out : List Char) : List Char :=
  let rev := out.reverse.dropWhile (fun c => c ≠ '/')
  (match rev with
   | '/' :: r => r
   | r => r).reverse

/-- The `remove_dot_segments` loop of RFC 3986 §5.2.4.  Each iteration
strictly shortens the input, so any fuel at least the input length is
enough. -/
def rdsAux : Nat → List Char → List Char → List Char
  | 0, _, out => out
  | n + 1, inp, out =>
    if inp = [] then out
    else if leadsWith ['.', '.', '/'] inp then rdsAux n (inp.drop 3) out
    else if leadsWith ['.', '/'] inp then rdsAux n (inp.drop 2) out
    else if leadsWith ['/', '.', '/'] inp then rdsAux n ('/' :: inp.drop 3) out
    else if inp = ['/', '.'] then rdsAux n ['/'] out
    else if leadsWith ['/', '.', '.', '/'] inp then rdsAux n ('/' :: inp.drop 4) (popSeg out)
    else if inp = ['/', '.', '.'] then rdsAux n ['/'] (popSeg out)
    else if inp = ['.'] ∨ inp = ['.', '.'] then out
    else if leadsWith ['/'] inp then
      rdsAux n ((inp.drop 1).dropWhile (fun c => c ≠ '/'))
        (out ++ '/' :: (inp.drop 1).takeWhile (fun c => c ≠ '/'))
    else
      rdsAux n (inp.dropWhile (fun c => c ≠ '/')) (out ++ inp.takeWhile (fun c => c ≠ '/'))

/-- `remove_dot_segments` (RFC 3986 §5.2.4). -/
def rds (inp : List Char) : List Char := rdsAux (inp.length + 1) inp []

/-- Merge a relative path with the base (RFC 3986 §5.2.3): the base path up
to and including its last `/`, or a single `/` when the base has an
authority and an empty path. -/
def mergePaths (b : UriRef) (rp : List Char) : List Char :=
  if b.authority.isSome ∧ b.path = [] then '/' :: rp
  else (b.path.reverse.dropWhile (fun c => c ≠ '/')).reverse ++ rp

/-- Normalization of an already-absolute reference: RFC 3986 §5.2.2 applies
`remove_dot_segments` to its path and keeps everything else. -/
def normalizeAbs (r : UriRef) : UriRef := { r with path := rds r.path }

/-- The transform-references algorithm of RFC 3986 §5.2.2 for a reference
without a scheme, against a parsed absolute base. -/
def resolveRef (b r : UriRef) : UriRef :=
  if r.authority.isSome then
    { scheme := b.scheme, authority := r.authority, path := rds r.path
      query := r.query, fragment := r.fragment }
  else if r.path = [] then
    { scheme := b.scheme, authority := b.authority, path := b.path
      query := match r.query with | some q => some q | none => b.query
      fragment := r.fragment }
  else if r.path.head? = some '/' then
    { scheme := b.scheme, authority := b.authority, path := rds r.path
      query := r.query, fragment := r.fragment }
  else
    { scheme := b.scheme, authority := b.authority, path := rds (mergePaths b r.path)
      query := r.query, fragment := r.fragment }

/-- Modelled from the spec: the contract of `resolve(base, reference)` in
spec §4.1, standing in for the libsoup resolution chain that `resolve_url`
wraps (that library code is not in the repository).  An already-absolute
reference keeps its own scheme and authority and is normalized per
RFC 3986 §5.2.2; a relative reference is resolved against the base; input
that cannot be parsed as a URI — including a base without a scheme — yields
`none` (libsoup's NULL). -/
def resolve_rfc (base ref : String) : Option String :=
  match parseRef ref with
  | none => none
  | some r =>
    if r.scheme.isSome then some (String.mk (serializeRef (normalizeAbs r)))
    else
      match parseRef base with
      | none => none
      | some b =>
        if b.scheme.isSome then some (String.mk (serializeRef (resolveRef b r)))
        else none

/-! ### The dispatcher / thread-pool transition system

`start_crawler` (source lines 182-218) seeds the frontier, creates a
GThreadPool of `thread_count` workers, then loops
`while (!g_queue_is_empty(url_queue))`, popping the head under the mutex and
pushing it into the pool's own task queue; when the loop observes an empty
`url_queue` it falls through to `g_thread_pool_free(pool, FALSE, TRUE)`,
which waits until the pool queue is drained and all workers are idle, and
then the function tears everything down and returns.  The interleaving of
the dispatcher thread and the pool workers is embedded as a small-step
relation. -/

/-- Where the dispatcher thread is: still in its pop/push loop, waiting
inside `g_thread_pool_free`, or returned. -/
inductive Phase where
  | looping
  | freeing
  | done
  deriving DecidableEq

/-- A global snapshot: the shared frontier, the thread pool's internal task
queue (tasks pushed by `g_thread_pool_push` and not yet picked up by a
worker), the tasks currently being processed by workers, and the
dispatcher's phase. -/
structure SysState where
  frontier : CrawlState
  poolQueue : List UrlItem
  inflight : List UrlItem
  phase : Phase
  deriving DecidableEq

/-- The fixed data of one crawl run: the resolver behavior, the `max_depth`
global (3 in the source), the link graph being crawled, and the pool's
`thread_count`. -/
structure CrawlEnv where
  resolve : Resolver
  maxDepth : Int
  web : String → FetchResponse
  threadCount : Int

/-- One atomic step of the crawl, from the source's control flow:

* `dispatch` — one iteration of the dispatcher loop: the emptiness test sees
  a non-empty `url_queue`, the head is popped under the mutex and pushed
  into the pool queue (lines 204-209);
* `exitLoop` — the emptiness test sees an empty `url_queue` and the
  dispatcher falls through to `g_thread_pool_free` (line 204 to 213);
* `grab` — an idle pool worker (the pool runs at most `thread_count`
  concurrently) picks up the head of the pool queue;
* `finish` — a worker completes `fetch_url` for its task, applying the
  fetch/extract/discover effects to the frontier atomically with respect to
  the other mutations (each individual mutation holds `queue_mutex`; taking
  them as one step only restricts which snapshots are observable, and the
  processing has a defined result only when no resolver-NULL crash occurs);
* `free` — `g_thread_pool_free(pool, FALSE, TRUE)` returns once the pool
  queue is empty and every worker is idle, and `start_crawler` returns. -/
inductive SysStep (env : CrawlEnv) : SysState → SysState → Prop where
  | dispatch (s : SysState) (item : UrlItem) (rest : List UrlItem)
      (hp : s.phase = Phase.looping) (hq : s.frontier.queue = item :: rest) :
      SysStep env s { s with frontier := { s.frontier with queue := rest },
                             poolQueue := s.poolQueue ++ [item] }
  | exitLoop (s : SysState)
      (hp : s.phase = Phase.looping) (hq : s.frontier.queue = []) :
      SysStep env s { s with phase := Phase.freeing }
  | grab (s : SysState) (item : UrlItem) (rest : List UrlItem)
      (hq : s.poolQueue = item :: rest)
      (hcap : (s.inflight.length : Int) < env.threadCount) :
      SysStep env s { s with poolQueue := rest, inflight := item :: s.inflight }
  | finish (s : SysState) (item : UrlItem) (pre post : List UrlItem) (st' : CrawlState)
      (hin : s.inflight = pre ++ item :: post)
      (hres : (fetch_url env.resolve env.maxDepth env.web item s.frontier).state = some st') :
      SysStep env s { s with inflight := pre ++ post, frontier := st' }
  | free (s : SysState)
      (hp : s.phase = Phase.freeing) (hq : s.poolQueue = []) (hw : s.inflight = []) :
      SysStep env s { s with phase := Phase.done }

/-- Reflexive-transitive closure of `SysStep`: the states a run can reach. -/
inductive Reach (env : CrawlEnv) : SysState → SysState → Prop where
  | refl (s : SysState) : Reach env s s
  | tail {s t u : SysState} : Reach env s t → SysStep env t u → Reach env s u

/-- The state right after `start_crawler` finished seeding and created the
pool: seeded frontier, empty pool queue, no worker busy, dispatcher about to
run its loop. -/
def initSys (urls : List String) : SysState :=
  { frontier := seed { queue := [], visited := [] } urls
    poolQueue := []
    inflight := []
    phase := Phase.looping }

/-! ### Concrete instances used by the claims -/

/-- The double quote as a one-character string. -/
def dqs : String := dquoteC.toString

/-- The single quote as a one-character string. -/
def sqs : String := squoteC.toString

/-- The page body of the seed in the two-page link graph: one link to
`https://a.com/b`. -/
def bodyC1 : String := "<a href=" ++ dqs ++ "https://a.com/b" ++ dqs ++ ">"

/-- A two-page link graph: the seed `https://a.com/` serves a page linking
to `https://a.com/b`; everything else is 404. -/
def webC1 (u : String) : FetchResponse :=
  if u = "https://a.com/" then { status := 200, body := bodyC1, reason := "OK" }
  else { status := 404, body := "", reason := "Not Found" }

/-- A crawl of `webC1` with the source defaults: `max_depth = 3` (source
line 44), five worker threads (source line 226 default). -/
def envC1 : CrawlEnv :=
  { resolve := resolve_rfc, maxDepth := 3, web := webC1, threadCount := 5 }

/-- The same crawl configured with zero worker threads, as
`./glib_web_crawler <seed> <arg>` produces whenever the last argument parses
to 0 via `atoi`. -/
def envC9 : CrawlEnv :=
  { resolve := resolve_rfc, maxDepth := 3, web := webC1, threadCount := 0 }

/-- A web in which every URL answers 201 Created — a 2xx-class success. -/
def web201 (_u : String) : FetchResponse :=
  { status := 201, body := "created", reason := "Created" }

/-- The spec §8 extraction test input:
`<a href="https://x.com/1">` followed by `<a href='/2'>`. -/
def exampleHtml : String :=
  "<a href=" ++ dqs ++ "https://x.com/1" ++ dqs ++ "><a href=" ++ sqs ++ "/2" ++ sqs ++ ">"

/-- A page whose single link contains a space, so the link cannot be parsed
as a URI: `<a href="/x y">`. -/
def body5 : String := "<a href=" ++ dqs ++ "/x y" ++ dqs ++ ">"

/-- The end state of the racy run of the `webC1` crawl: `start_crawler` has
returned (`g_thread_pool_free` came back, the dispatcher loop is gone), yet
the discovered task for `https://a.com/b` is still sitting in `url_queue`,
never dispatched and never fetched. -/
def abandonedC1 : SysState :=
  { frontier := { queue := [⟨"https://a.com/b", 1⟩]
                  visited := ["https://a.com/b", "https://a.com/"] }
    poolQueue := []
    inflight := []
    phase := Phase.done }

/-- The stuck state of the zero-worker run: the seed task has been pushed
into the pool's queue, the dispatcher has entered
`g_thread_pool_free(pool, FALSE, TRUE)`, and — with `thread_count = 0` — no
worker can ever pick the task up, so no transition is enabled and the wait
never returns. -/
def stuckC9 : SysState :=
  { frontier := { queue := [], visited := ["https://a.com/"] }
    poolQueue := [⟨"https://a.com/", 0⟩]
    inflight := []
    phase := Phase.freeing }

/-! ### Helper lemmas about the extractor -/

/-- Every character of a true `leadsWith` pattern occurs in the scanned
list. -/
theorem leadsWith_subset : ∀ (p l : List Char), leadsWith p l = true → ∀ c ∈ p, c ∈ l
  | [], _, _, c, hc => by simp at hc
  | _ :: _, [], h, _, _ => by simp [leadsWith] at h
  | a :: as, b :: bs, h, c, hc => by
    simp only [leadsWith, Bool.and_eq_true, decide_eq_true_eq] at h
    rcases List.mem_cons.mp hc with hca | hcas
    · exact hca ▸ h.1 ▸ List.mem_cons_self b bs
    · exact List.mem_cons_of_mem b (leadsWith_subset as bs h.2 c hcas)

/-- If the input does not start with `href=`, the regex does not match
there. -/
theorem tryMatch_eq_none {cs : List Char} (h : leadsWith hrefKey cs = false) :
    tryMatch cs = none := by
  simp [tryMatch, h]

/-- A successful match captures a non-empty value all of whose characters
lie outside the stop set `{", ', >}`. -/
theorem tryMatch_sound {cs v rest : List Char} (h : tryMatch cs = some (v, rest)) :
    v ≠ [] ∧ ∀ c ∈ v, stopChar c = false := by
  unfold tryMatch at h
  by_cases hk : leadsWith hrefKey cs
  · simp only [hk, if_true] at h
    set rest2 := (match cs.drop 5 with
      | c :: cs2 => if c = dquoteC || c = squoteC then cs2 else c :: cs2
      | [] => []) with hrest2
    by_cases hv : rest2.takeWhile (fun c => !stopChar c) = []
    · simp [hv] at h
    · rw [if_neg hv] at h
      obtain ⟨hv1, _⟩ := Prod.mk.injEq .. ▸ Option.some.injEq .. ▸ h
      constructor
      · exact hv1 ▸ hv
      · intro c hc
        have := List.mem_takeWhile_imp (hv1 ▸ hc)
        simpa using this
  · simp [hk] at h

/-- If `href=` occurs nowhere in the input, the scan yields nothing. -/
theorem scanFuel_eq_nil : ∀ (n : Nat) (cs : List Char),
    containsHref cs = false → scanFuel n cs = []
  | 0, _, _ => rfl
  | _ + 1, [], _ => rfl
  | n + 1, c :: cs, h => by
    have h' : leadsWith hrefKey (c :: cs) = false ∧ containsHref cs = false := by
      simpa [containsHref] using h
    simp [scanFuel, tryMatch_eq_none h'.1, scanFuel_eq_nil n cs h'.2]

/-- Every yielded capture is non-empty and free of the stop characters. -/
theorem scanFuel_mem : ∀ (n : Nat) (cs v : List Char), v ∈ scanFuel n cs →
    v ≠ [] ∧ ∀ c ∈ v, stopChar c = false
  | 0, _, _, h => by simp [scanFuel] at h
  | _ + 1, [], _, h => by simp [scanFuel] at h
  | n + 1, c :: cs, v, h => by
    rw [scanFuel] at h
    cases ht : tryMatch (c :: cs) with
    | none => rw [ht] at h; exact scanFuel_mem n cs v h
    | some pr =>
      obtain ⟨v0, rest⟩ := pr
      rw [ht] at h
      rcases List.mem_cons.mp h with hv | hv
      · exact hv ▸ tryMatch_sound ht
      · exact scanFuel_mem n rest v hv

/-! ### Helper lemmas about `remove_dot_segments` -/

/-- On an input containing no `.` at all, none of the dot cases of
RFC 3986 §5.2.4 ever fires, so the loop just moves the input to the
output. -/
theorem rdsAux_no_dot : ∀ (n : Nat) (inp out : List Char), inp.length < n →
    '.' ∉ inp → rdsAux n inp out = out ++ inp
  | 0, _, _, hlen, _ => absurd hlen (Nat.not_lt_zero _)
  | n + 1, inp, out, hlen, hdot => by
    have hd1 : leadsWith ['.', '.', '/'] inp = false := by
      by_contra hc
      exact hdot (leadsWith_subset _ _ (by simpa using hc) '.' (by decide))
    have hd2 : leadsWith ['.', '/'] inp = false := by
      by_contra hc
      exact hdot (leadsWith_subset _ _ (by simpa using hc) '.' (by decide))
    have hd3 : leadsWith ['/', '.', '/'] inp = false := by
      by_contra hc
      exact hdot (leadsWith_subset _ _ (by simpa using hc) '.' (by decide))
    have hd4 : inp ≠ ['/', '.'] := by
      intro he; exact hdot (he ▸ (by decide : '.' ∈ ['/', '.']))
    have hd5 : leadsWith ['/', '.', '.', '/'] inp = false := by
      by_contra hc
      exact hdot (leadsWith_subset _ _ (by simpa using hc) '.' (by decide))
    have hd6 : inp ≠ ['/', '.', '.'] := by
      intro he; exact hdot (he ▸ (by decide : '.' ∈ ['/', '.', '.']))
    have hd7 : ¬(inp = ['.'] ∨ inp = ['.', '.']) := by
      rintro (he | he) <;> exact hdot (he ▸ (by decide))
    match inp, hlen, hdot with
    | [], _, _ => simp [rdsAux]
    | c :: tl, hlen, hdot =>
      rw [rdsAux]
      rw [if_neg (by simp), if_neg (by simp [hd1]), if_neg (by simp [hd2]),
        if_neg (by simp [hd3]), if_neg hd4, if_neg (by simp [hd5]), if_neg hd6,
        if_neg hd7]
      have htl_dot : '.' ∉ tl := fun hm => hdot (List.mem_cons_of_mem c hm)
      have hdrop_dot : '.' ∉ tl.dropWhile (fun c => c ≠ '/') :=
        fun hm => htl_dot ((List.dropWhile_sublist _).mem hm)
      have hdrop_len : (tl.dropWhile (fun c => c ≠ '/')).length < n := by
        have h1 : (tl.dropWhile (fun c => c ≠ '/')).length ≤ tl.length :=
          List.Sublist.length_le (List.dropWhile_sublist _)
        have h2 : tl.length + 1 < n + 1 := by simpa using hlen
        omega
      by_cases hc : c = '/'
      · rw [if_pos (by simp [leadsWith, hc])]
        subst hc
        simp only [List.drop_one, List.tail_cons]
        rw [rdsAux_no_dot n _ _ hdrop_len hdrop_dot]
        simp [List.append_assoc, List.takeWhile_append_dropWhile]
      · rw [if_neg (by simp [leadsWith]; exact fun h => hc h.symm)]
        have hstep : List.dropWhile (fun c => decide (c ≠ '/')) (c :: tl)
            = List.dropWhile (fun c => decide (c ≠ '/')) tl := by
          simp [List.dropWhile_cons, hc]
        have hstep2 : List.takeWhile (fun c => decide (c ≠ '/')) (c :: tl)
            = c :: List.takeWhile (fun c => decide (c ≠ '/')) tl := by
          simp [List.takeWhile_cons, hc]
        rw [hstep, hstep2, rdsAux_no_dot n _ _ hdrop_len hdrop_dot]
        simp [List.append_assoc, List.takeWhile_append_dropWhile]

/-- `remove_dot_segments` is the identity on paths without any `.`. -/
theorem rds_no_dot {inp : List Char} (h : '.' ∉ inp) : rds inp = inp := by
  unfold rds
  rw [rdsAux_no_dot (inp.length + 1) inp [] (Nat.lt_succ_self _) h]
  simp

/-! ### Helper lemmas about the frontier operations -/

/-- Seeding pushes one depth-0 task per argument URL, unconditionally. -/
theorem seed_queue : ∀ (urls : List String) (st : CrawlState),
    (seed st urls).queue = st.queue ++ urls.map (fun u => (⟨u, 0⟩ : UrlItem))
  | [], st => by simp [seed]
  | u :: rest, st => by
    have h := seed_queue rest (seedStep st u)
    simp only [seed, List.foldl_cons] at h ⊢
    rw [h]
    simp [seedStep]

/-- The dedup set only grows. -/
theorem discoverStep_visited_mono {st : CrawlState} {u v : String} {d : Int}
    (h : u ∈ st.visited) : u ∈ (discoverStep st v d).visited := by
  unfold discoverStep
  split
  · exact h
  · exact List.mem_cons_of_mem v h

/-- Any task the check-and-insert block leaves in the queue was already
there or was pushed now, at depth `d + 1`. -/
theorem discoverStep_queue_mem {st : CrawlState} {v : String} {d : Int} {i : UrlItem}
    (h : i ∈ (discoverStep st v d).queue) : i ∈ st.queue ∨ i.depth = d + 1 := by
  unfold discoverStep at h
  split at h
  · exact Or.inl h
  · rcases List.mem_append.mp h with h1 | h1
    · exact Or.inl h1
    · right
      have : i = ⟨v, d + 1⟩ := by simpa using h1
      rw [this]

/-- A URL already in the dedup set is never pushed by a discovery step. -/
theorem discoverStep_count_visited {st : CrawlState} {u v : String} {d : Int}
    (h : u ∈ st.visited) :
    urlCount u (discoverStep st v d).queue = urlCount u st.queue := by
  unfold discoverStep
  split
  · rfl
  · rename_i hv
    have hvu : ¬(u = v) := fun he => hv (he ▸ h)
    simp [urlCount, List.count_append, List.count_cons, hvu]

/-- The first discovery of an unseen URL pushes it exactly once and marks it
seen. -/
theorem discoverStep_count_push {st : CrawlState} {u : String} (d : Int)
    (h : u ∉ st.visited) :
    urlCount u (discoverStep st u d).queue = urlCount u st.queue + 1
      ∧ u ∈ (discoverStep st u d).visited := by
  unfold discoverStep
  rw [if_neg h]
  refine ⟨?_, List.mem_cons_self u _⟩
  simp [urlCount, List.count_append, List.count_cons]

/-- Discovering a different URL neither pushes `u` nor marks it seen. -/
theorem discoverStep_count_other {st : CrawlState} {u v : String} {d : Int}
    (hvu : v ≠ u) :
    urlCount u (discoverStep st v d).queue = urlCount u st.queue := by
  unfold discoverStep
  have huv : ¬(u = v) := fun he => hvu he.symm
  split
  · rfl
  · simp [urlCount, List.count_append, List.count_cons, huv]

/-- Discovering a different URL leaves `u` unseen. -/
theorem discoverStep_not_visited {st : CrawlState} {u v : String} (d : Int)
    (hu : u ∉ st.visited) (hvu : v ≠ u) :
    u ∉ (discoverStep st v d).visited := by
  unfold discoverStep
  split
  · exact hu
  · intro hm
    rcases List.mem_cons.mp hm with h1 | h1
    · exact hvu h1.symm
    · exact hu h1

/-- Across any serialized sequence of discovery attempts, a URL already in
the dedup set is never pushed again. -/
theorem runDiscovers_count_visited : ∀ (attempts : List (String × Int))
    (st : CrawlState) (u : String), u ∈ st.visited →
    urlCount u (runDiscovers st attempts).queue = urlCount u st.queue
  | [], _, _, _ => rfl
  | a :: rest, st, u, h => by
    have hstep : runDiscovers st (a :: rest) = runDiscovers (discoverStep st a.1 a.2) rest := rfl
    rw [hstep,
      runDiscovers_count_visited rest _ u (discoverStep_visited_mono h),
      discoverStep_count_visited h]

/-- Across any serialized sequence of discovery attempts that mentions an
unseen URL at least once, that URL is pushed exactly once. -/
theorem runDiscovers_count_once : ∀ (attempts : List (String × Int))
    (st : CrawlState) (u : String), u ∉ st.visited →
    (∃ a ∈ attempts, a.1 = u) →
    urlCount u (runDiscovers st attempts).queue = urlCount u st.queue + 1
  | [], _, _, _, hex => by simp at hex
  | (v, d) :: rest, st, u, hu, hex => by
    have hstep : runDiscovers st ((v, d) :: rest)
        = runDiscovers (discoverStep st v d) rest := rfl
    by_cases hvu : v = u
    · subst hvu
      have h1 := discoverStep_count_push d hu
      rw [hstep, runDiscovers_count_visited rest _ v h1.2, h1.1]
    · have hu' := discoverStep_not_visited d hu hvu
      have hex' : ∃ a ∈ rest, a.1 = u := by
        obtain ⟨a, ha, hau⟩ := hex
        rcases List.mem_cons.mp ha with h1 | h1
        · subst h1
          exact absurd hau hvu
        · exact ⟨a, h1, hau⟩
      rw [hstep, runDiscovers_count_once rest _ u hu' hex',
        discoverStep_count_other hvu]

/-! ### Helper lemmas about worker processing and depths -/

/-- Any task in the queue after the extraction loop was already queued or
was pushed at depth `d + 1`. -/
theorem extractLoop_queue_mem : ∀ (us : List String) (r : Resolver) (base : String)
    (d : Int) (st st' : CrawlState), extractLoop r base d us st = some st' →
    ∀ i ∈ st'.queue, i ∈ st.queue ∨ i.depth = d + 1
  | [], r, base, d, st, st', h => by
    simp only [extractLoop, Option.some.injEq] at h
    subst h
    exact fun i hi => Or.inl hi
  | u :: rest, r, base, d, st, st', h => by
    rw [extractLoop] at h
    cases hr : r base u with
    | none => rw [hr] at h; exact absurd h (by simp)
    | some abs =>
      rw [hr] at h
      intro i hi
      rcases extractLoop_queue_mem rest r base d _ st' h i hi with h1 | h1
      · exact discoverStep_queue_mem h1
      · exact Or.inr h1

/-- Any task in the queue after one completed `fetch_url` was already
queued, or was discovered at the processed task's depth plus one, with the
processed task strictly below `max_depth` (otherwise extraction is
skipped). -/
theorem fetch_url_queue_mem {r : Resolver} {md : Int} {web : String → FetchResponse}
    {item : UrlItem} {st st' : CrawlState}
    (h : (fetch_url r md web item st).state = some st') :
    ∀ i ∈ st'.queue, i ∈ st.queue ∨ (i.depth = item.depth + 1 ∧ item.depth < md) := by
  unfold fetch_url at h
  by_cases hs : (web item.url).status = 200
  · simp only [hs, if_true] at h
    unfold extract_urls at h
    by_cases hd : md ≤ item.depth
    · rw [if_pos hd] at h
      simp only [Option.some.injEq] at h
      subst h
      exact fun i hi => Or.inl hi
    · rw [if_neg hd] at h
      intro i hi
      rcases extractLoop_queue_mem _ _ _ _ _ _ h i hi with h1 | h1
      · exact Or.inl h1
      · exact Or.inr ⟨h1, lt_of_not_le hd⟩
  · simp only [hs, if_false] at h
    simp only [Option.some.injEq] at h
    subst h
    exact fun i hi => Or.inl hi

/-! ### Claim C2 — dedup of enqueues -/

/-- Claim C2 counterexample: the claim states that seeding a URL already in
the seen set (a duplicate seed) does not push it again, so each URL is
enqueued at most once over the whole crawl.  The seeding loop of
`start_crawler` pushes unconditionally — it never consults `visited_urls` —
so seeding `["https://a.com", "https://a.com"]` enqueues the URL twice. -/
theorem c2_seed_dup_counterexample :
    urlCount "https://a.com"
      (seed { queue := [], visited := [] } ["https://a.com", "https://a.com"]).queue = 2 := by
  decide

/-- Claim C2 (amended): across any serialized sequence of discovery
attempts (any worker interleaving of the mutex-protected check-and-insert
block of `extract_urls`), a URL already in the seen set is never enqueued
again, and an unseen URL attempted at least once is enqueued exactly once;
seeding, however, pushes one task per seed argument unconditionally, so a
duplicate seed is enqueued once per occurrence. -/
theorem c2_dedup_amended :
    ∀ (st : CrawlState) (attempts : List (String × Int)) (u : String) (urls : List String),
      (u ∈ st.visited →
        urlCount u (runDiscovers st attempts).queue = urlCount u st.queue)
      ∧ (u ∉ st.visited → (∃ a ∈ attempts, a.1 = u) →
        urlCount u (runDiscovers st attempts).queue = urlCount u st.queue + 1)
      ∧ (seed st urls).queue = st.queue ++ urls.map (fun v => (⟨v, 0⟩ : UrlItem)) :=
  fun st attempts u urls =>
    ⟨fun h => runDiscovers_count_visited attempts st u h,
     fun h hex => runDiscovers_count_once attempts st u h hex,
     seed_queue urls st⟩

/-- Claim C2 witness: a fresh URL discovered once is enqueued exactly
once. -/
theorem c2_dedup_amended_witness :
    urlCount "https://u.com"
        (runDiscovers { queue := [], visited := [] } [("https://u.com", 0)]).queue
      = urlCount "https://u.com" (CrawlState.mk [] []).queue + 1 :=
  (c2_dedup_amended { queue := [], visited := [] } [("https://u.com", 0)]
      "https://u.com" []).2.1 (by decide) ⟨("https://u.com", 0), by decide, rfl⟩

/-! ### Claim C4 — success is 200 only, not the 2xx class -/

/-- Claim C4 counterexample: the claim states that fetch returns a success
outcome exactly when the status is in the 2xx class.  `fetch_url` tests
`msg->status_code == SOUP_STATUS_OK`, the single integer 200, so a 201
Created response — a 2xx-class success — is reported as a failure: nothing
is saved and the failure line is printed. -/
theorem c4_counterexample :
    200 ≤ (web201 "https://a.com/x").status ∧ (web201 "https://a.com/x").status < 300
    ∧ (fetch_url resolve_rfc 3 web201 ⟨"https://a.com/x", 0⟩
        { queue := [], visited := [] }).saved = none
    ∧ (fetch_url resolve_rfc 3 web201 ⟨"https://a.com/x", 0⟩
        { queue := [], visited := [] }).reported
      = some (failMsg "https://a.com/x" (web201 "https://a.com/x")) := by
  decide

/-- Claim C4 (amended): for every URL, the worker takes the success path —
saving the body, no failure report — exactly when the response status is
the integer 200; every other status, including other 2xx-class codes and
libsoup's transport-failure codes, takes the failure-report path.  The
caller always receives a result (the embedding is a total function on the
fetch branch). -/
theorem c4_success_iff_200 :
    ∀ (r : Resolver) (md : Int) (web : String → FetchResponse)
      (item : UrlItem) (st : CrawlState),
      ((fetch_url r md web item st).saved.isSome ↔ (web item.url).status = 200)
      ∧ ((fetch_url r md web item st).reported = none ↔ (web item.url).status = 200) := by
  intro r md web item st
  unfold fetch_url
  by_cases hs : (web item.url).status = 200 <;> simp [hs]

/-! ### Claim C5 — no InvalidURL outcome, no skip: the crash path -/

/-- Claim C5 (code bug): the claim states that an unparseable base or
reference makes resolve return an `InvalidURL` error outcome and makes the
worker skip that single link and continue.  In the source, `resolve_url`
returns whatever `soup_uri_to_string` produced — NULL when the URI could
not be parsed — and `extract_urls` hands that result to
`g_hash_table_contains` with no check, where `g_str_hash` dereferences it:
undefined behavior (`none` in the embedding), not a skip.  Concretely, the
link `/x y` contains a space, cannot be parsed as a URI, and processing the
page `<a href="/x y">` has no defined result state. -/
theorem c5_unresolvable_link_crash :
    resolve_rfc "https://a.com/" "/x y" = none
    ∧ extractHrefs body5 = ["/x y"]
    ∧ extract_urls resolve_rfc 3 body5 "https://a.com/" 0
        { queue := [], visited := ["https://a.com/"] } = none := by
  decide

/-! ### Claim C6 — resolution of absolute references -/

/-- Claim C6 counterexample: the claim states that resolving an
already-absolute reference returns the reference string unchanged.
Standard resolution (RFC 3986 §5.2.2, which the spec itself designates)
applies `remove_dot_segments` to the reference's path, so an absolute
reference containing a dot segment is altered. -/
theorem c6_dot_counterexample :
    resolve_rfc "https://a.com/" "https://b.com/x/../y" = some "https://b.com/y"
    ∧ ("https://b.com/y" : String) ≠ "https://b.com/x/../y" := by
  decide

/-- Claim C6 (amended): an already-absolute reference is returned changed
at most by dot-segment normalization of its path: a parseable absolute
reference whose path contains no `.` character (hence no dot segments) and
which round-trips through the parser is returned verbatim, for every base;
and standard relative resolution gives
`resolve("https://a.com/x/y", "../z") = "https://a.com/z"`. -/
theorem c6_resolve_amended :
    (∀ (base ref : String) (u : UriRef),
      parseRef ref = some u → u.scheme.isSome → '.' ∉ u.path →
      serializeRef u = ref.data → resolve_rfc base ref = some ref)
    ∧ resolve_rfc "https://a.com/x/y" "../z" = some "https://a.com/z" := by
  constructor
  · intro base ref u hp hs hdot hser
    unfold resolve_rfc
    rw [hp]
    simp only [hs, if_true]
    have h1 : normalizeAbs u = u := by
      unfold normalizeAbs
      rw [rds_no_dot hdot]
    rw [h1, hser]
  · decide

/-- Claim C6 witness: a dot-free absolute reference is returned
unchanged. -/
theorem c6_resolve_amended_witness :
    resolve_rfc "https://a.com/" "https://b.com/w" = some "https://b.com/w" :=
  c6_resolve_amended.1 "https://a.com/" "https://b.com/w"
    ⟨some "https".data, some "b.com".data, "/w".data, none, none⟩
    (by decide) (by decide) (by decide) (by decide)

/-! ### Claim C7 — extraction correctness -/

/-- Claim C7: extraction yields the `href` attribute values (double-,
single- or un-quoted) verbatim, in order of first occurrence, never fails
(the embedding is a total function, as `g_regex_match` is), and yields the
empty sequence when `href=` occurs nowhere; on the spec's test input,
`<a href="https://x.com/1"><a href='/2'>`, it yields exactly
`["https://x.com/1", "/2"]` in that order; and every yielded value is a
non-empty verbatim run free of the delimiter characters `"`, `'`, `>`. -/
theorem c7_extraction :
    extractHrefs exampleHtml = ["https://x.com/1", "/2"]
    ∧ (∀ s : String, containsHref s.data = false → extractHrefs s = [])
    ∧ (∀ (cs v : List Char), v ∈ scanHrefs cs → v ≠ [] ∧ ∀ c ∈ v, stopChar c = false) := by
  refine ⟨by decide, ?_, ?_⟩
  · intro s h
    simp [extractHrefs, scanHrefs, scanFuel_eq_nil _ _ h]
  · intro cs v hv
    exact scanFuel_mem _ _ _ hv

/-- Claim C7 witness: an input without `href=` yields the empty list. -/
theorem c7_extraction_witness : extractHrefs "<p>plain text</p>" = [] :=
  c7_extraction.2.1 "<p>plain text</p>" (by decide)

/-! ### Claim C8 — inclusive fetch, exclusive extraction at the boundary -/

/-- Claim C8: a task at depth exactly `max_depth` is still fetched and its
body saved (the depth plays no role in the fetch/save branch), but
extraction is skipped; and `extract_urls` performs no extraction and no
frontier mutation whenever the task's depth is at or beyond `max_depth`. -/
theorem c8_depth_boundary :
    ∀ (r : Resolver) (md : Int) (web : String → FetchResponse) (item : UrlItem)
      (st : CrawlState) (content base : String) (d : Int),
      (item.depth = md → (web item.url).status = 200 →
        fetch_url r md web item st
          = { state := some st, saved := some (item.url, (web item.url).body),
              reported := none })
      ∧ (md ≤ d → extract_urls r md content base d st = some st) := by
  intro r md web item st content base d
  constructor
  · intro hd hs
    unfold fetch_url
    simp [hs, extract_urls, hd]
  · intro hle
    simp [extract_urls, hle]

/-- Claim C8 witness: at `max_depth = 3`, a depth-3 task is fetched and
saved with the frontier untouched. -/
theorem c8_depth_boundary_witness :
    fetch_url resolve_rfc 3 webC1 ⟨"https://a.com/", 3⟩ { queue := [], visited := [] }
      = { state := some { queue := [], visited := [] },
          saved := some ("https://a.com/", (webC1 "https://a.com/").body),
          reported := none }
    ∧ extract_urls resolve_rfc 3 "x" "https://a.com/" 3 { queue := [], visited := [] }
      = some { queue := [], visited := [] } :=
  ⟨(c8_depth_boundary resolve_rfc 3 webC1 ⟨"https://a.com/", 3⟩
      { queue := [], visited := [] } "x" "https://a.com/" 3).1 rfl (by decide),
   (c8_depth_boundary resolve_rfc 3 webC1 ⟨"https://a.com/", 3⟩
      { queue := [], visited := [] } "x" "https://a.com/" 3).2 (by decide)⟩

/-! ### Claim C10 — failed fetch is atomic -/

/-- Claim C10: for every task whose fetch does not return status 200, the
worker writes no output file, performs no extraction, and leaves the
frontier (queue and seen set) exactly as it was; it only reports the
failure. -/
theorem c10_failed_fetch_atomic :
    ∀ (r : Resolver) (md : Int) (web : String → FetchResponse)
      (item : UrlItem) (st : CrawlState),
      (web item.url).status ≠ 200 →
      fetch_url r md web item st
        = { state := some st, saved := none,
            reported := some (failMsg item.url (web item.url)) } := by
  intro r md web item st h
  unfold fetch_url
  simp [h]

/-- Claim C10 witness: a 404 fetch reports and changes nothing. -/
theorem c10_failed_fetch_atomic_witness :
    fetch_url resolve_rfc 3 webC1 ⟨"https://x.com/", 0⟩ { queue := [], visited := [] }
      = { state := some { queue := [], visited := [] }, saved := none,
          reported := some (failMsg "https://x.com/" (webC1 "https://x.com/")) } :=
  c10_failed_fetch_atomic resolve_rfc 3 webC1 ⟨"https://x.com/", 0⟩
    { queue := [], visited := [] } (by decide)

/-! ### Claim C3 — the depth bound is a crawl-wide invariant -/

/-- Claim C3: in every state any run can reach (under any worker
interleaving, any link graph, any resolver behavior), every task anywhere
in the pipeline — still pending in `url_queue`, already popped into the
thread pool's queue, or being processed by a worker — has
`0 ≤ depth ≤ max_depth`; seeds enter at depth 0, discoveries at their
parent's depth plus one, and extraction is skipped at or beyond
`max_depth`.  In particular no task with `depth > max_depth` is ever
popped. -/
theorem c3_depth_bound (env : CrawlEnv) (urls : List String) (s : SysState)
    (hmd : 0 ≤ env.maxDepth) (hr : Reach env (initSys urls) s) :
    ∀ i : UrlItem, (i ∈ s.frontier.queue ∨ i ∈ s.poolQueue ∨ i ∈ s.inflight) →
      0 ≤ i.depth ∧ i.depth ≤ env.maxDepth := by
  induction hr with
  | refl =>
    intro i hi
    rcases hi with h1 | h1 | h1
    · have hq : (initSys urls).frontier.queue
          = [] ++ urls.map (fun u => (⟨u, 0⟩ : UrlItem)) := seed_queue urls _
      rw [hq] at h1
      simp only [List.nil_append, List.mem_map] at h1
      obtain ⟨u, _, hEq⟩ := h1
      rw [← hEq]
      exact ⟨le_refl 0, hmd⟩
    · simp [initSys] at h1
    · simp [initSys] at h1
  | tail _ hstep ih =>
    cases hstep with
    | dispatch item rest hp hq =>
      intro i hi
      apply ih
      simp only at hi
      rcases hi with h1 | h1 | h1
      · exact Or.inl (hq ▸ List.mem_cons_of_mem item h1)
      · rcases List.mem_append.mp h1 with h2 | h2
        · exact Or.inr (Or.inl h2)
        · have hii : i = item := by simpa using h2
          exact Or.inl (hq ▸ (hii ▸ List.mem_cons_self item rest))
      · exact Or.inr (Or.inr h1)
    | exitLoop hp hq =>
      intro i hi
      exact ih i (by simpa using hi)
    | grab item rest hq hcap =>
      intro i hi
      apply ih
      simp only at hi
      rcases hi with h1 | h1 | h1
      · exact Or.inl h1
      · exact Or.inr (Or.inl (hq ▸ List.mem_cons_of_mem item h1))
      · rcases List.mem_cons.mp h1 with h2 | h2
        · exact Or.inr (Or.inl (hq ▸ (h2 ▸ List.mem_cons_self item rest)))
        · exact Or.inr (Or.inr h2)
    | finish item pre post st' hin hres =>
      intro i hi
      simp only at hi
      rcases hi with h1 | h1 | h1
      · rcases fetch_url_queue_mem hres i h1 with h2 | h2
        · exact ih i (Or.inl h2)
        · have hitem := ih item (Or.inr (Or.inr (by
            rw [hin]; exact List.mem_append.mpr (Or.inr (List.mem_cons_self item post)))))
          obtain ⟨h3, _⟩ := hitem
          obtain ⟨h4, h5⟩ := h2
          constructor <;> omega
      · exact ih i (Or.inr (Or.inl h1))
      · apply ih
        refine Or.inr (Or.inr ?_)
        rw [hin]
        rcases List.mem_append.mp h1 with h2 | h2
        · exact List.mem_append.mpr (Or.inl h2)
        · exact List.mem_append.mpr (Or.inr (List.mem_cons_of_mem item h2))
    | free hp hq hw =>
      intro i hi
      exact ih i (by simpa using hi)

/-- Claim C3 witness: in the seeded initial state of a crawl of `webC1`,
the seed task's depth is within `[0, max_depth]`. -/
theorem c3_depth_bound_witness :
    0 ≤ (UrlItem.mk "https://a.com/" 0).depth
    ∧ (UrlItem.mk "https://a.com/" 0).depth ≤ envC1.maxDepth :=
  c3_depth_bound envC1 ["https://a.com/"] (initSys ["https://a.com/"])
    (by decide) (Reach.refl _) ⟨"https://a.com/", 0⟩ (Or.inl (by decide))

/-! ### Claim C1 — termination detection -/

/-- Claim C1 (code bug): the claim states that `start_crawler` returns only
when all workers are simultaneously idle and the frontier is empty, so that
every URL accepted into the frontier within the depth bound is dispatched
and fetched before the crawl ends, under every worker interleaving.  The
dispatcher loop exits the first moment it observes `url_queue` empty, and
`g_thread_pool_free` waits only for the pool's own tasks — so in the run
below the single seed is popped and handed to a worker, the dispatcher sees
the empty queue and stops dispatching, the worker then discovers
`https://a.com/b` and enqueues it, and the crawl completes with that
accepted URL still pending, never dispatched or fetched. -/
theorem c1_dispatcher_abandons_pending_task :
    Reach envC1 (initSys ["https://a.com/"]) abandonedC1
    ∧ abandonedC1.phase = Phase.done
    ∧ abandonedC1.frontier.queue ≠ [] := by
  refine ⟨?_, rfl, by decide⟩
  have h01 : SysStep envC1 (initSys ["https://a.com/"])
      { frontier := { queue := [], visited := ["https://a.com/"] }
        poolQueue := [⟨"https://a.com/", 0⟩]
        inflight := []
        phase := Phase.looping } :=
    SysStep.dispatch (initSys ["https://a.com/"]) ⟨"https://a.com/", 0⟩ [] rfl rfl
  have h12 : SysStep envC1
      { frontier := { queue := [], visited := ["https://a.com/"] }
        poolQueue := [⟨"https://a.com/", 0⟩]
        inflight := []
        phase := Phase.looping }
      { frontier := { queue := [], visited := ["https://a.com/"] }
        poolQueue := []
        inflight := [⟨"https://a.com/", 0⟩]
        phase := Phase.looping } :=
    SysStep.grab _ ⟨"https://a.com/", 0⟩ [] rfl (by decide)
  have h23 : SysStep envC1
      { frontier := { queue := [], visited := ["https://a.com/"] }
        poolQueue := []
        inflight := [⟨"https://a.com/", 0⟩]
        phase := Phase.looping }
      { frontier := { queue := [], visited := ["https://a.com/"] }
        poolQueue := []
        inflight := [⟨"https://a.com/", 0⟩]
        phase := Phase.freeing } :=
    SysStep.exitLoop _ rfl rfl
  have h34 : SysStep envC1
      { frontier := { queue := [], visited := ["https://a.com/"] }
        poolQueue := []
        inflight := [⟨"https://a.com/", 0⟩]
        phase := Phase.freeing }
      { frontier := { queue := [⟨"https://a.com/b", 1⟩]
                      visited := ["https://a.com/b", "https://a.com/"] }
        poolQueue := []
        inflight := []
        phase := Phase.freeing } :=
    SysStep.finish _ ⟨"https://a.com/", 0⟩ [] []
      { queue := [⟨"https://a.com/b", 1⟩]
        visited := ["https://a.com/b", "https://a.com/"] }
      rfl (by decide)
  have h45 : SysStep envC1
      { frontier := { queue := [⟨"https://a.com/b", 1⟩]
                      visited := ["https://a.com/b", "https://a.com/"] }
        poolQueue := []
        inflight := []
        phase := Phase.freeing }
      abandonedC1 :=
    SysStep.free _ rfl rfl rfl
  exact Reach.tail (Reach.tail (Reach.tail (Reach.tail
    (Reach.tail (Reach.refl _) h01) h12) h23) h34) h45

/-! ### Claim C9 — no validation of the worker count -/

/-- Claim C9 (code bug): the claim states that with `worker_count < 1` the
crawl fails to start before any task is dispatched.  The source validates
nothing: `g_thread_pool_new` is called with whatever `atoi` produced, and
the dispatcher loop pushes tasks into the pool regardless.  With
`thread_count = 0` the run below dispatches the seed task into the pool
queue and then reaches a state that is not terminal (`phase ≠ done`), from
which no transition is enabled — no worker may start (the pool's capacity
is 0), so `g_thread_pool_free(pool, FALSE, TRUE)` waits forever: the crawl
neither fails before dispatch nor completes. -/
theorem c9_zero_workers_no_failfast :
    Reach envC9 (initSys ["https://a.com/"]) stuckC9
    ∧ stuckC9.poolQueue ≠ []
    ∧ stuckC9.phase ≠ Phase.done
    ∧ ∀ t : SysState, ¬ SysStep envC9 stuckC9 t := by
  refine ⟨?_, by decide, by decide, ?_⟩
  · have h01 : SysStep envC9 (initSys ["https://a.com/"])
        { frontier := { queue := [], visited := ["https://a.com/"] }
          poolQueue := [⟨"https://a.com/", 0⟩]
          inflight := []
          phase := Phase.looping } :=
      SysStep.dispatch (initSys ["https://a.com/"]) ⟨"https://a.com/", 0⟩ [] rfl rfl
    have h12 : SysStep envC9
        { frontier := { queue := [], visited := ["https://a.com/"] }
          poolQueue := [⟨"https://a.com/", 0⟩]
          inflight := []
          phase := Phase.looping }
        stuckC9 :=
      SysStep.exitLoop _ rfl rfl
    exact Reach.tail (Reach.tail (Reach.refl _) h01) h12
  · intro t h
    cases h with
    | dispatch item rest hp hq => exact absurd hp (by decide)
    | exitLoop hp hq => exact absurd hp (by decide)
    | grab item rest hq hcap => exact absurd hcap (by decide)
    | finish item pre post st' hin hres =>
      have h2 := List.append_eq_nil.mp hin.symm
      exact absurd h2.2 (by simp)
    | free hp hq hw => exact absurd hq (by decide)
